import Mathlib

/-!
Verification of `neuraxle/steps/caching.py`: the classes
`ValueCachingWrapper` (orchestration) and `PickleValueCachingWrapper`
(filesystem realization).

Shallow embedding.  The filesystem is modelled as a set of directories
plus an association list of files; a pickle file is either a valid
serialized payload or a corrupt (for example truncated) blob on which
`pickle.load` raises.  Paths are lists of components and `os.path.join`
appends a component.  Machinery such as hashing (the pluggable
`value_hasher`), the wrapped step and the pipeline `DataContainer` are
external collaborators of the file under verification and enter the
model as parameters, as documented on each definition.
-/

set_option autoImplicit false

namespace Caching

/-- A filesystem path, as the list of its components; `os.path.join a b`
becomes appending one component. -/
abbrev Path := List String

/-- Contents of one cache file: a successfully pickled payload (the list
of outputs written by `pickle.dump(output, file_)`, where `output` is the
list returned by `wrapped.transform([data_input])`), or a corrupt or
truncated blob on which `pickle.load` raises. -/
inductive CacheFile (β : Type) where
  | valid (ys : List β)
  | corrupt
deriving DecidableEq, Repr

/-- Errors raised by the modelled operations: Python `AttributeError`
(the `checkpoint_path` attribute read before `setup` ever ran),
`FileNotFoundError` (`shutil.rmtree` on a missing directory, `open` on a
missing file or inside a missing directory), and `pickle.UnpicklingError`
on a corrupt payload — the error the specification calls
`CacheCorruptionError`. -/
inductive CacheErr where
  | attributeMissing
  | fileNotFound
  | corruption
deriving DecidableEq, Repr

/-- Modelled from the spec: the caching-scheme label `VALUE_CACHING`
imported from `neuraxle.steps.misc` (not part of the source under
verification); the spec describes it as a fixed caching-scheme label that
is one component of the checkpoint directory. -/
def VALUE_CACHING : String := "value_caching"

/-- State of one `PickleValueCachingWrapper` instance together with the
filesystem it acts on.  `wrapped` is the wrapped step (`self.wrapped`),
`value_hasher` the injected hashing strategy (`self.value_hasher.hash`),
`cache_folder` the `self.cache_folder` attribute, `checkpoint_path` the
`self.checkpoint_path` attribute (`none` while the attribute is unset,
before `create_checkpoint_path` ran), `dirs` the set of existing
directories and `files` the existing files (later bindings shadowed by
earlier ones, as in a map). -/
structure Sys (σ α β : Type) where
  wrapped : σ
  value_hasher : α → String
  cache_folder : Path
  checkpoint_path : Option Path
  dirs : List Path
  files : List (Path × CacheFile β)

variable {σ α β γ ι : Type}

/-- Behavior of `os.path.exists` on the modelled filesystem. -/
def path_exists (s : Sys σ α β) (p : Path) : Bool :=
  (s.files.lookup p).isSome || s.dirs.contains p

/-- Writing one file: the new content replaces any previous file at `p`. -/
def fs_write (l : List (Path × CacheFile β)) (p : Path) (v : CacheFile β) :
    List (Path × CacheFile β) :=
  (p, v) :: l.filter (fun kv => !(kv.1 == p))

/-- The file path `os.path.join(self.checkpoint_path,
'{0}.pickle'.format(hash_value))` built by `get_cache_path_for`. -/
def cache_file_path (cp : Path) (hv : String) : Path := cp ++ [hv ++ ".pickle"]

/-- `PickleValueCachingWrapper.get_cache_path_for`.  Reading
`self.checkpoint_path` raises `AttributeError` when the attribute was
never assigned (no prior `create_checkpoint_path`). -/
def get_cache_path_for (s : Sys σ α β) (x : α) : Except CacheErr Path :=
  match s.checkpoint_path with
  | none => .error .attributeMissing
  | some cp => .ok (cache_file_path cp (s.value_hasher x))

/-- `PickleValueCachingWrapper.create_checkpoint_path`: join
`cache_folder`, `step_path` and `VALUE_CACHING`, create the directory
when `os.path.exists` is false, assign `self.checkpoint_path`, return
the path.  `os.makedirs` also creates missing parents; only the full
path matters to the operations modelled here. -/
def create_checkpoint_path (s : Sys σ α β) (step_path : String) :
    Sys σ α β × Path :=
  let p : Path := s.cache_folder ++ [step_path, VALUE_CACHING]
  let s' := if path_exists s p then s else { s with dirs := p :: s.dirs }
  ({ s' with checkpoint_path := some p }, p)

/-- `ValueCachingWrapper.setup`: it only calls `create_checkpoint_path`
on the step path (the optional `setup_arguments` are unused). -/
def setup (s : Sys σ α β) (step_path : String) : Sys σ α β × Path :=
  create_checkpoint_path s step_path

/-- `PickleValueCachingWrapper.flush_cache`: `shutil.rmtree` on the
checkpoint path (removing the directory, every subdirectory and every
file beneath it; raising `FileNotFoundError` when the directory does not
exist) followed by `os.mkdir` recreating the empty directory. -/
def flush_cache (s : Sys σ α β) : Except CacheErr (Sys σ α β) :=
  match s.checkpoint_path with
  | none => .error .attributeMissing
  | some cp =>
    if cp ∈ s.dirs then
      .ok { s with
        dirs := cp :: s.dirs.filter (fun d => !(cp.isPrefixOf d)),
        files := s.files.filter (fun kv => !(cp.isPrefixOf kv.1)) }
    else .error .fileNotFound

/-- `PickleValueCachingWrapper.contains_cache_for`: `os.path.exists` of
the cache path. -/
def contains_cache_for (s : Sys σ α β) (x : α) : Except CacheErr Bool :=
  (get_cache_path_for s x).map (path_exists s)

/-- `PickleValueCachingWrapper.read_cache`: `open(path, 'rb')` (raising
`FileNotFoundError` when no file is at the path) then `pickle.load`
(raising on a corrupt payload). -/
def read_cache (s : Sys σ α β) (x : α) : Except CacheErr (List β) :=
  match get_cache_path_for s x with
  | .error e => .error e
  | .ok p =>
    match s.files.lookup p with
    | none => .error .fileNotFound
    | some .corrupt => .error .corruption
    | some (.valid ys) => .ok ys

/-- First half of `write_cache`: `open(path, 'wb')` creates or truncates
the file at the final path, visible to `os.path.exists` immediately and
unreadable by `pickle.load` until the dump completes; it requires the
enclosing checkpoint directory to exist. -/
def open_trunc (s : Sys σ α β) (x : α) : Except CacheErr (Sys σ α β) :=
  match s.checkpoint_path with
  | none => .error .attributeMissing
  | some cp =>
    if cp ∈ s.dirs then
      .ok { s with
        files := fs_write s.files (cache_file_path cp (s.value_hasher x)) .corrupt }
    else .error .fileNotFound

/-- Second half of `write_cache`: a completed `pickle.dump(output,
file_)` leaves a valid payload at the cache path. -/
def pickle_dump (s : Sys σ α β) (x : α) (ys : List β) :
    Except CacheErr (Sys σ α β) :=
  match s.checkpoint_path with
  | none => .error .attributeMissing
  | some cp =>
    .ok { s with
      files := fs_write s.files (cache_file_path cp (s.value_hasher x)) (.valid ys) }

/-- `PickleValueCachingWrapper.write_cache`: open-and-truncate the final
path, then dump the payload into it. -/
def write_cache (s : Sys σ α β) (x : α) (ys : List β) :
    Except CacheErr (Sys σ α β) :=
  match open_trunc s x with
  | .error e => .error e
  | .ok s₁ => pickle_dump s₁ x ys

/-- Observable events of one wrapper call, instrumenting the embedding:
cache flush, fit of the wrapped step, and per-item cache hit or miss
(each carrying the output chunk appended for that item). -/
inductive Event (α β : Type) where
  | flush
  | fitted
  | hit (x : α) (ys : List β)
  | miss (x : α) (ys : List β)
deriving DecidableEq, Repr

/-- True for the per-item events (hit and miss). -/
def Event.isItem : Event α β → Bool
  | .hit _ _ => true
  | .miss _ _ => true
  | _ => false

/-- True exactly for a cache-hit event. -/
def Event.isHit : Event α β → Bool
  | .hit _ _ => true
  | _ => false

/-- The item of a per-item event. -/
def Event.itemOf : Event α β → Option α
  | .hit x _ => some x
  | .miss x _ => some x
  | _ => none

/-- The output chunk appended for a per-item event. -/
def Event.outsOf : Event α β → List β
  | .hit _ ys => ys
  | .miss _ ys => ys
  | _ => []

/-- Turn a miss event into the hit event with the same item and chunk. -/
def Event.asHit : Event α β → Event α β
  | .miss x ys => .hit x ys
  | e => e

/-- Result of one run of the caching loop: the flat output list, the
final state, the number of `wrapped.transform` invocations and the
per-item event trace. -/
structure LoopResult (σ α β : Type) where
  outs : List β
  sys : Sys σ α β
  calls : ℕ
  trace : List (Event α β)

/-- `ValueCachingWrapper._transform_with_cache`, instrumented with the
number of `wrapped.transform` invocations and with the per-item event
trace: for each `(current_id, data_input, expected_output)` triple, on a
hit extend the outputs with the cached payload, on a miss transform the
singleton batch `[data_input]` with the wrapped step, write the result
to the cache and extend the outputs with it. -/
def transform_with_cache (f : α → List β) :
    Sys σ α β → List (ι × α × γ) →
    Except CacheErr (LoopResult σ α β)
  | s, [] => .ok ⟨[], s, 0, []⟩
  | s, t :: rest =>
    match contains_cache_for s t.2.1 with
    | .error e => .error e
    | .ok true =>
      match read_cache s t.2.1 with
      | .error e => .error e
      | .ok ys =>
        match transform_with_cache f s rest with
        | .error e => .error e
        | .ok r => .ok ⟨ys ++ r.outs, r.sys, r.calls, .hit t.2.1 ys :: r.trace⟩
    | .ok false =>
      let ys := f t.2.1
      match write_cache s t.2.1 ys with
      | .error e => .error e
      | .ok s₁ =>
        match transform_with_cache f s₁ rest with
        | .error e => .error e
        | .ok r => .ok ⟨ys ++ r.outs, r.sys, r.calls + 1, .miss t.2.1 ys :: r.trace⟩

/-- Modelled from the spec: the pipeline `DataContainer`
(`neuraxle.base`, not part of the source under verification): ordered
`current_ids`, `data_inputs` and `expected_outputs`, iterated as
`(current_id, data_input, expected_output)` triples. -/
structure DataContainer (ι δ γ : Type) where
  current_ids : List ι
  data_inputs : List δ
  expected_outputs : List γ

/-- The triples produced by iterating a `DataContainer`. -/
def containerItems (dc : DataContainer ι α γ) : List (ι × α × γ) :=
  dc.current_ids.zip (dc.data_inputs.zip dc.expected_outputs)

/-- Modelled from the spec: the wrapped transformation unit, an external
collaborator exposing `fit(inputs, expected_outputs) -> unit` and
`transform(inputs) -> outputs`; the caching loop only ever calls
`transform` on a singleton batch `[data_input]`, so only that case is
modelled. -/
structure WrappedUnit (σ α β γ : Type) where
  fit : σ → List α → List γ → σ
  transformOne : σ → α → List β

/-- The observable result of `handle_transform` or
`handle_fit_transform`: the returned data container (with
`set_data_inputs(outputs)` and `set_current_ids` applied), the final
wrapper state, and the instrumentation (number of wrapped-transform
invocations and the event trace). -/
structure StepResult (ι σ α β γ : Type) where
  container : DataContainer ι β γ
  sys : Sys σ α β
  calls : ℕ
  trace : List (Event α β)

/-- `ValueCachingWrapper.handle_transform`: run the caching loop, set
the data inputs to the outputs and recompute the current ids.  The
`rehash` parameter is modelled from the spec: it stands for
`self.hash(current_ids, hyperparams, outputs)` of the pipeline base
class (not part of the source under verification), with the hyperparams
of the wrapper folded into the closure. -/
def handle_transform (W : WrappedUnit σ α β γ)
    (rehash : List ι → List β → List ι)
    (s : Sys σ α β) (dc : DataContainer ι α γ) :
    Except CacheErr (StepResult ι σ α β γ) :=
  match transform_with_cache (W.transformOne s.wrapped) s (containerItems dc) with
  | .error e => .error e
  | .ok r =>
    .ok { container := { current_ids := rehash dc.current_ids r.outs,
                         data_inputs := r.outs,
                         expected_outputs := dc.expected_outputs },
          sys := r.sys, calls := r.calls, trace := r.trace }

/-- `ValueCachingWrapper.handle_fit_transform`: flush the cache, replace
the wrapped step by `wrapped.fit(data_inputs, expected_outputs)`, run
the caching loop, set the data inputs to the outputs and recompute the
current ids.  `rehash` is as in `handle_transform`. -/
def handle_fit_transform (W : WrappedUnit σ α β γ)
    (rehash : List ι → List β → List ι)
    (s : Sys σ α β) (dc : DataContainer ι α γ) :
    Except CacheErr (StepResult ι σ α β γ) :=
  match flush_cache s with
  | .error e => .error e
  | .ok s₁ =>
    let w := W.fit s₁.wrapped dc.data_inputs dc.expected_outputs
    let s₂ : Sys σ α β := { s₁ with wrapped := w }
    match transform_with_cache (W.transformOne w) s₂ (containerItems dc) with
    | .error e => .error e
    | .ok r =>
      .ok { container := { current_ids := rehash dc.current_ids r.outs,
                           data_inputs := r.outs,
                           expected_outputs := dc.expected_outputs },
            sys := r.sys, calls := r.calls,
            trace := Event.flush :: Event.fitted :: r.trace }

/-! Helper lemmas about the modelled filesystem. -/

theorem lookup_filter_ne {l : List (Path × CacheFile β)} {p q : Path} (h : ¬ q = p) :
    (l.filter (fun kv => !(kv.1 == p))).lookup q = l.lookup q := by
  induction l with
  | nil => rfl
  | cons kv l ih =>
    have hqp : (q == p) = false := by simp [beq_eq_false_iff_ne, h]
    by_cases hk : kv.1 = p
    · have hq : (q == kv.1) = false := by
        simp only [beq_eq_false_iff_ne, ne_eq]
        exact fun hqq => h (hqq ▸ hk)
      simp [List.filter, hk, List.lookup, hq, hqp, ih]
    · have : (kv.1 == p) = false := by simp [beq_eq_false_iff_ne, hk]
      simp [List.filter, this, List.lookup, ih]

theorem lookup_fs_write (l : List (Path × CacheFile β)) (p : Path) (v : CacheFile β)
    (q : Path) :
    (fs_write l p v).lookup q = if q = p then some v else l.lookup q := by
  by_cases h : q = p
  · simp [fs_write, List.lookup, h]
  · have : (q == p) = false := by simp [beq_eq_false_iff_ne, h]
    simp [fs_write, List.lookup, this, h, lookup_filter_ne h]

theorem lookup_filter_not_under {l : List (Path × CacheFile β)} {cp q : Path}
    (h : cp.isPrefixOf q = true) :
    (l.filter (fun kv => !(cp.isPrefixOf kv.1))).lookup q = none := by
  induction l with
  | nil => rfl
  | cons kv l ih =>
    by_cases hk : cp.isPrefixOf kv.1 = true
    · simp [List.filter, hk, ih]
    · have hne : (q == kv.1) = false := by
        simp only [beq_eq_false_iff_ne, ne_eq]
        exact fun hqq => hk (hqq ▸ h)
      simp only [List.filter, Bool.not_eq_true] at *
      simp [hk, List.lookup, hne, ih]

theorem cache_path_under (cp : Path) (hv : String) :
    cp.isPrefixOf (cache_file_path cp hv) = true := by
  rw [List.isPrefixOf_iff_prefix]
  exact List.prefix_append cp [hv ++ ".pickle"]

theorem cache_path_ne (cp : Path) (hv : String) : ¬ cache_file_path cp hv = cp := by
  intro h
  have := congrArg List.length h
  simp [cache_file_path] at this

theorem string_append_cancel {a b : String} (c : String) (h : a ++ c = b ++ c) :
    a = b := by
  cases a with
  | mk da =>
    cases b with
    | mk db =>
      cases c with
      | mk dc =>
        apply congrArg String.mk
        have hd : da ++ dc = db ++ dc := congrArg String.data h
        exact List.append_cancel_right hd

theorem cache_path_inj {cp : Path} {h₁ h₂ : String}
    (h : cache_file_path cp h₁ = cache_file_path cp h₂) : h₁ = h₂ := by
  have h' := List.append_cancel_left h
  have h'' : h₁ ++ ".pickle" = h₂ ++ ".pickle" := by
    simpa using h'
  exact string_append_cancel _ h''

/-! Helper lemmas about the individual cache operations. -/

theorem flush_cache_ok {s s' : Sys σ α β} (h : flush_cache s = .ok s') :
    ∃ cp, s.checkpoint_path = some cp ∧ cp ∈ s.dirs ∧
      s' = { s with
        dirs := cp :: s.dirs.filter (fun d => !(cp.isPrefixOf d)),
        files := s.files.filter (fun kv => !(cp.isPrefixOf kv.1)) } := by
  unfold flush_cache at h
  cases hcp : s.checkpoint_path with
  | none => simp [hcp] at h
  | some cp =>
    simp only [hcp] at h
    by_cases hd : cp ∈ s.dirs
    · refine ⟨cp, rfl, hd, ?_⟩
      simp only [if_pos hd, Except.ok.injEq] at h
      exact h.symm
    · simp [if_neg hd] at h

theorem contains_cache_eq {s : Sys σ α β} {cp : Path}
    (hcp : s.checkpoint_path = some cp) (x : α) :
    contains_cache_for s x =
      .ok (path_exists s (cache_file_path cp (s.value_hasher x))) := by
  simp [contains_cache_for, get_cache_path_for, hcp, Except.map]

theorem flush_empties {s s' : Sys σ α β} (h : flush_cache s = .ok s') :
    ∀ x : α, contains_cache_for s' x = .ok false := by
  intro x
  obtain ⟨cp, hcp, hd, rfl⟩ := flush_cache_ok h
  rw [contains_cache_eq (by simpa using hcp)]
  have hu : cp.isPrefixOf (cache_file_path cp (s.value_hasher x)) = true :=
    cache_path_under _ _
  have hlook :
      (s.files.filter (fun kv => !(cp.isPrefixOf kv.1))).lookup
        (cache_file_path cp (s.value_hasher x)) = none :=
    lookup_filter_not_under hu
  have hmem : cache_file_path cp (s.value_hasher x) ∉
      cp :: s.dirs.filter (fun d => !(cp.isPrefixOf d)) := by
    intro hmem
    rcases List.mem_cons.mp hmem with heq | hmem'
    · exact cache_path_ne cp _ heq
    · have := List.of_mem_filter hmem'
      simp [hu] at this
  have hcontains : (cp :: s.dirs.filter (fun d => !(cp.isPrefixOf d))).contains
      (cache_file_path cp (s.value_hasher x)) = false := by
    rw [Bool.eq_false_iff]
    intro hc
    rw [List.contains_iff_exists_mem_beq] at hc
    obtain ⟨d, hdmem, hbeq⟩ := hc
    have hdq : d = cache_file_path cp (s.value_hasher x) := (beq_iff_eq.mp hbeq).symm
    subst hdq
    exact hmem hdmem
  simp only [path_exists, hlook, Option.isSome_none, Bool.false_or]
  exact congrArg Except.ok hcontains

theorem write_cache_ok {s s' : Sys σ α β} {x : α} {ys : List β}
    (h : write_cache s x ys = .ok s') :
    ∃ cp, s.checkpoint_path = some cp ∧ cp ∈ s.dirs ∧
      s' = { s with files := fs_write
                      (fs_write s.files (cache_file_path cp (s.value_hasher x)) .corrupt)
                      (cache_file_path cp (s.value_hasher x)) (.valid ys) } := by
  unfold write_cache open_trunc pickle_dump at h
  cases hcp : s.checkpoint_path with
  | none => simp [hcp] at h
  | some cp =>
    simp only [hcp] at h
    by_cases hd : cp ∈ s.dirs
    · simp only [if_pos hd, Except.ok.injEq] at h
      exact ⟨cp, rfl, hd, h.symm⟩
    · simp [if_neg hd] at h

theorem lookup_write2 (l : List (Path × CacheFile β)) (p : Path) (ys : List β)
    (q : Path) :
    (fs_write (fs_write l p .corrupt) p (.valid ys)).lookup q =
      if q = p then some (.valid ys) else l.lookup q := by
  rw [lookup_fs_write]
  by_cases h : q = p
  · simp [h]
  · simp [h, lookup_fs_write, if_neg h]

theorem contains_false_elim {s : Sys σ α β} {cp : Path} {x : α}
    (hcp : s.checkpoint_path = some cp)
    (h : contains_cache_for s x = .ok false) :
    s.files.lookup (cache_file_path cp (s.value_hasher x)) = none ∧
      cache_file_path cp (s.value_hasher x) ∉ s.dirs := by
  rw [contains_cache_eq hcp] at h
  simp only [Except.ok.injEq] at h
  have h' := h
  simp only [path_exists, Bool.or_eq_false_iff] at h'
  have hlook : s.files.lookup (cache_file_path cp (s.value_hasher x)) = none := by
    cases hl : s.files.lookup (cache_file_path cp (s.value_hasher x)) with
    | none => rfl
    | some v => rw [hl] at h'; exact absurd h'.1 (by simp)
  refine ⟨hlook, ?_⟩
  intro hmem
  have : s.dirs.contains (cache_file_path cp (s.value_hasher x)) = true := by
    rw [List.contains_iff_exists_mem_beq]
    exact ⟨_, hmem, by simp⟩
  rw [this] at h'
  exact absurd h'.2 (by simp)

theorem twc_cons_elim {f : α → List β} {s : Sys σ α β} {t : ι × α × γ}
    {rest : List (ι × α × γ)} {r : LoopResult σ α β}
    (h : transform_with_cache f s (t :: rest) = .ok r) :
    (∃ ys r', contains_cache_for s t.2.1 = .ok true ∧
       read_cache s t.2.1 = .ok ys ∧
       transform_with_cache f s rest = .ok r' ∧
       r = ⟨ys ++ r'.outs, r'.sys, r'.calls, .hit t.2.1 ys :: r'.trace⟩) ∨
    (∃ s₁ r', contains_cache_for s t.2.1 = .ok false ∧
       write_cache s t.2.1 (f t.2.1) = .ok s₁ ∧
       transform_with_cache f s₁ rest = .ok r' ∧
       r = ⟨f t.2.1 ++ r'.outs, r'.sys, r'.calls + 1,
            .miss t.2.1 (f t.2.1) :: r'.trace⟩) := by
  unfold transform_with_cache at h
  cases hc : contains_cache_for s t.2.1 with
  | error e => simp [hc] at h
  | ok c =>
    cases c with
    | true =>
      simp only [hc] at h
      cases hr : read_cache s t.2.1 with
      | error e => simp [hr] at h
      | ok ys =>
        simp only [hr] at h
        cases hrec : transform_with_cache f s rest with
        | error e => simp [hrec] at h
        | ok r' =>
          simp only [hrec, Except.ok.injEq] at h
          exact Or.inl ⟨ys, r', rfl, rfl, rfl, h.symm⟩
    | false =>
      simp only [hc] at h
      cases hw : write_cache s t.2.1 (f t.2.1) with
      | error e => simp [hw] at h
      | ok s₁ =>
        simp only [hw] at h
        cases hrec : transform_with_cache f s₁ rest with
        | error e => simp [hrec] at h
        | ok r' =>
          simp only [hrec, Except.ok.injEq] at h
          exact Or.inr ⟨s₁, r', rfl, rfl, hrec, h.symm⟩

theorem contains_ok_cp {s : Sys σ α β} {x : α} {c : Bool}
    (h : contains_cache_for s x = .ok c) : ∃ cp, s.checkpoint_path = some cp := by
  unfold contains_cache_for get_cache_path_for at h
  cases hcp : s.checkpoint_path with
  | none => simp [hcp, Except.map] at h
  | some cp => exact ⟨cp, rfl⟩

theorem contains_true_intro {s : Sys σ α β} {cp : Path} {x : α}
    (hcp : s.checkpoint_path = some cp)
    (hl : (s.files.lookup (cache_file_path cp (s.value_hasher x))).isSome = true) :
    contains_cache_for s x = .ok true := by
  rw [contains_cache_eq hcp]
  simp [path_exists, hl]

theorem contains_false_intro {s : Sys σ α β} {cp : Path} {x : α}
    (hcp : s.checkpoint_path = some cp)
    (hl : s.files.lookup (cache_file_path cp (s.value_hasher x)) = none)
    (hd : cache_file_path cp (s.value_hasher x) ∉ s.dirs) :
    contains_cache_for s x = .ok false := by
  rw [contains_cache_eq hcp]
  have hc : s.dirs.contains (cache_file_path cp (s.value_hasher x)) = false := by
    rw [Bool.eq_false_iff]
    intro hcon
    rw [List.contains_iff_exists_mem_beq] at hcon
    obtain ⟨d, hdm, hbeq⟩ := hcon
    exact hd ((beq_iff_eq.mp hbeq) ▸ hdm)
  refine congrArg Except.ok ?_
  simp only [path_exists, hl, Option.isSome_none, Bool.false_or]
  exact hc

theorem read_cache_ok_elim {s : Sys σ α β} {cp : Path} {x : α} {ys : List β}
    (hcp : s.checkpoint_path = some cp) (h : read_cache s x = .ok ys) :
    s.files.lookup (cache_file_path cp (s.value_hasher x)) = some (.valid ys) := by
  unfold read_cache get_cache_path_for at h
  simp only [hcp] at h
  cases hl : s.files.lookup (cache_file_path cp (s.value_hasher x)) with
  | none => simp [hl] at h
  | some v =>
    cases v with
    | corrupt => simp [hl] at h
    | valid zs => simp only [hl, Except.ok.injEq] at h; rw [h]

theorem read_cache_of_lookup {s : Sys σ α β} {cp : Path} {x : α} {ys : List β}
    (hcp : s.checkpoint_path = some cp)
    (hl : s.files.lookup (cache_file_path cp (s.value_hasher x)) = some (.valid ys)) :
    read_cache s x = .ok ys := by
  simp [read_cache, get_cache_path_for, hcp, hl]

theorem write_cache_eq {s : Sys σ α β} {cp : Path}
    (hcp : s.checkpoint_path = some cp) (hd : cp ∈ s.dirs) (x : α) (ys : List β) :
    write_cache s x ys = .ok
      { s with files := fs_write
                 (fs_write s.files (cache_file_path cp (s.value_hasher x)) .corrupt)
                 (cache_file_path cp (s.value_hasher x)) (.valid ys) } := by
  simp [write_cache, open_trunc, pickle_dump, hcp, hd]

theorem twc_nil_elim {f : α → List β} {s : Sys σ α β} {r : LoopResult σ α β}
    (h : transform_with_cache f s ([] : List (ι × α × γ)) = .ok r) :
    r = ⟨[], s, 0, []⟩ := by
  unfold transform_with_cache at h
  simp only [Except.ok.injEq] at h
  exact h.symm

theorem twc_cons_hit_intro {f : α → List β} {s : Sys σ α β} {t : ι × α × γ}
    {rest : List (ι × α × γ)} {ys : List β} {r' : LoopResult σ α β}
    (hc : contains_cache_for s t.2.1 = .ok true)
    (hr : read_cache s t.2.1 = .ok ys)
    (hrec : transform_with_cache f s rest = .ok r') :
    transform_with_cache f s (t :: rest) =
      .ok ⟨ys ++ r'.outs, r'.sys, r'.calls, .hit t.2.1 ys :: r'.trace⟩ := by
  unfold transform_with_cache
  simp [hc, hr, hrec]

theorem twc_cons_miss_intro {f : α → List β} {s s₁ : Sys σ α β} {t : ι × α × γ}
    {rest : List (ι × α × γ)} {r' : LoopResult σ α β}
    (hc : contains_cache_for s t.2.1 = .ok false)
    (hw : write_cache s t.2.1 (f t.2.1) = .ok s₁)
    (hrec : transform_with_cache f s₁ rest = .ok r') :
    transform_with_cache f s (t :: rest) =
      .ok ⟨f t.2.1 ++ r'.outs, r'.sys, r'.calls + 1,
           .miss t.2.1 (f t.2.1) :: r'.trace⟩ := by
  unfold transform_with_cache
  simp [hc, hw, hrec]

theorem twc_fields {f : α → List β} {b : List (ι × α × γ)} :
    ∀ {s : Sys σ α β} {r : LoopResult σ α β},
      transform_with_cache f s b = .ok r →
      r.sys.checkpoint_path = s.checkpoint_path ∧ r.sys.dirs = s.dirs ∧
      r.sys.value_hasher = s.value_hasher ∧ r.sys.wrapped = s.wrapped := by
  induction b with
  | nil =>
    intro s r h
    rw [twc_nil_elim h]
    exact ⟨rfl, rfl, rfl, rfl⟩
  | cons t rest ih =>
    intro s r h
    rcases twc_cons_elim h with ⟨ys, r', hc, hr, hrec, rfl⟩ | ⟨s₁, r', hc, hw, hrec, rfl⟩
    · simpa using ih hrec
    · obtain ⟨cp, hcp, hd, rfl⟩ := write_cache_ok hw
      simpa using ih hrec

theorem twc_mono {f : α → List β} {b : List (ι × α × γ)} :
    ∀ {s : Sys σ α β} {r : LoopResult σ α β},
      transform_with_cache f s b = .ok r →
      ∀ q v, s.files.lookup q = some v → r.sys.files.lookup q = some v := by
  induction b with
  | nil =>
    intro s r h q v hv
    rw [twc_nil_elim h]
    exact hv
  | cons t rest ih =>
    intro s r h q v hv
    rcases twc_cons_elim h with ⟨ys, r', hc, hr, hrec, rfl⟩ | ⟨s₁, r', hc, hw, hrec, rfl⟩
    · exact ih hrec q v hv
    · obtain ⟨cp, hcp, hd, rfl⟩ := write_cache_ok hw
      have hnone := (contains_false_elim hcp hc).1
      have hqp : ¬ q = cache_file_path cp (s.value_hasher t.2.1) := by
        intro he
        rw [he, hnone] at hv
        cases hv
      apply ih hrec q v
      show (fs_write (fs_write s.files _ .corrupt) _ (.valid _)).lookup q = some v
      rw [lookup_write2, if_neg hqp]
      exact hv

theorem write_state {s s₁ : Sys σ α β} {x : α} {ys : List β} {cp : Path}
    (hcp : s.checkpoint_path = some cp)
    (hw : write_cache s x ys = .ok s₁) :
    s₁.checkpoint_path = some cp ∧ s₁.dirs = s.dirs ∧
    s₁.value_hasher = s.value_hasher ∧ s₁.wrapped = s.wrapped ∧
    ∀ q, s₁.files.lookup q =
      if q = cache_file_path cp (s.value_hasher x) then some (.valid ys)
      else s.files.lookup q := by
  obtain ⟨cp', hcp', hd, rfl⟩ := write_cache_ok hw
  have hce : cp = cp' := by
    rw [hcp] at hcp'
    exact Option.some.inj hcp'
  subst hce
  exact ⟨hcp, rfl, rfl, rfl, fun q => lookup_write2 _ _ _ q⟩

theorem twc_second_run {f : α → List β} {b : List (ι × α × γ)} :
    ∀ {s : Sys σ α β} {r : LoopResult σ α β},
      transform_with_cache f s b = .ok r →
      transform_with_cache f r.sys b =
        .ok ⟨r.outs, r.sys, 0, r.trace.map Event.asHit⟩ := by
  induction b with
  | nil =>
    intro s r h
    rw [twc_nil_elim h]
    rfl
  | cons t rest ih =>
    intro s r h
    rcases twc_cons_elim h with ⟨ys, r', hc, hr, hrec, rfl⟩ | ⟨s₁, r', hc, hw, hrec, rfl⟩
    · obtain ⟨cp, hcp⟩ := contains_ok_cp hc
      have hfields := twc_fields hrec
      have hlook := read_cache_ok_elim hcp hr
      have hlookr := twc_mono hrec _ _ hlook
      have hcp' : r'.sys.checkpoint_path = some cp := by rw [hfields.1, hcp]
      have hvh' : r'.sys.value_hasher = s.value_hasher := hfields.2.2.1
      have hlookr' : r'.sys.files.lookup
          (cache_file_path cp (r'.sys.value_hasher t.2.1)) = some (.valid ys) := by
        rw [hvh']
        exact hlookr
      have hc' := contains_true_intro hcp' (by rw [hlookr']; rfl)
      have hr' := read_cache_of_lookup hcp' hlookr'
      have hres := twc_cons_hit_intro hc' hr' (ih hrec)
      simpa [Event.asHit] using hres
    · obtain ⟨cp, hcp⟩ := contains_ok_cp hc
      obtain ⟨hcp₁, hdirs₁, hvh₁, hwr₁, hlook₁⟩ := write_state hcp hw
      have hfields := twc_fields hrec
      have hP : s₁.files.lookup (cache_file_path cp (s.value_hasher t.2.1)) =
          some (.valid (f t.2.1)) := by
        rw [hlook₁, if_pos rfl]
      have hlookr := twc_mono hrec _ _ hP
      have hcp' : r'.sys.checkpoint_path = some cp := by rw [hfields.1, hcp₁]
      have hvh' : r'.sys.value_hasher = s.value_hasher := by
        rw [hfields.2.2.1, hvh₁]
      have hlookr' : r'.sys.files.lookup
          (cache_file_path cp (r'.sys.value_hasher t.2.1)) =
          some (.valid (f t.2.1)) := by
        rw [hvh']
        exact hlookr
      have hc' := contains_true_intro hcp' (by rw [hlookr']; rfl)
      have hr' := read_cache_of_lookup hcp' hlookr'
      have hres := twc_cons_hit_intro hc' hr' (ih hrec)
      simpa [Event.asHit] using hres

theorem twc_trace_shape {f : α → List β} {b : List (ι × α × γ)} :
    ∀ {s : Sys σ α β} {r : LoopResult σ α β},
      transform_with_cache f s b = .ok r →
      r.trace.map Event.itemOf = b.map (fun t => some t.2.1) ∧
      r.outs = (r.trace.map Event.outsOf).flatten := by
  induction b with
  | nil =>
    intro s r h
    rw [twc_nil_elim h]
    exact ⟨rfl, rfl⟩
  | cons t rest ih =>
    intro s r h
    rcases twc_cons_elim h with ⟨ys, r', hc, hr, hrec, rfl⟩ | ⟨s₁, r', hc, hw, hrec, rfl⟩ <;>
    · obtain ⟨h1, h2⟩ := ih hrec
      simp [Event.itemOf, Event.outsOf, h1, h2]

theorem twc_trace_items {f : α → List β} {b : List (ι × α × γ)} :
    ∀ {s : Sys σ α β} {r : LoopResult σ α β},
      transform_with_cache f s b = .ok r → ∀ e ∈ r.trace, e.isItem = true := by
  induction b with
  | nil =>
    intro s r h e he
    rcases twc_nil_elim h with rfl
    simp at he
  | cons t rest ih =>
    intro s r h e he
    rcases twc_cons_elim h with ⟨ys, r', hc, hr, hrec, rfl⟩ | ⟨s₁, r', hc, hw, hrec, rfl⟩ <;>
      rcases List.mem_cons.mp he with rfl | hmem
    · rfl
    · exact ih hrec e hmem
    · rfl
    · exact ih hrec e hmem

theorem twc_no_corrupt {f : α → List β} {b : List (ι × α × γ)} :
    ∀ {s : Sys σ α β} {r : LoopResult σ α β} {cp : Path},
      s.checkpoint_path = some cp →
      transform_with_cache f s b = .ok r →
      ∀ t ∈ b,
        s.files.lookup (cache_file_path cp (s.value_hasher t.2.1)) ≠
          some .corrupt := by
  induction b with
  | nil =>
    intro s r cp hcp h t ht
    simp at ht
  | cons t rest ih =>
    intro s r cp hcp h t' ht'
    rcases twc_cons_elim h with ⟨ys, r', hc, hr, hrec, rfl⟩ | ⟨s₁, r', hc, hw, hrec, rfl⟩
    · rcases List.mem_cons.mp ht' with rfl | hmem
      · rw [read_cache_ok_elim hcp hr]
        simp
      · exact ih hcp hrec t' hmem
    · obtain ⟨hcp₁, hdirs₁, hvh₁, hwr₁, hlook₁⟩ := write_state hcp hw
      have hnone := (contains_false_elim hcp hc).1
      rcases List.mem_cons.mp ht' with rfl | hmem
      · rw [hnone]
        simp
      · have h' := ih hcp₁ hrec t' hmem
        rw [hvh₁] at h'
        by_cases hq : cache_file_path cp (s.value_hasher t'.2.1) =
            cache_file_path cp (s.value_hasher t.2.1)
        · rw [hq, hnone]
          simp
        · rw [hlook₁, if_neg hq] at h'
          exact h'

theorem twc_all_miss {f : α → List β} {b : List (ι × α × γ)} :
    ∀ {s : Sys σ α β} {cp : Path},
      s.checkpoint_path = some cp → cp ∈ s.dirs →
      (∀ t ∈ b,
        s.files.lookup (cache_file_path cp (s.value_hasher t.2.1)) = none ∧
        cache_file_path cp (s.value_hasher t.2.1) ∉ s.dirs) →
      (b.map (fun t => s.value_hasher t.2.1)).Nodup →
      ∃ s', transform_with_cache f s b =
        .ok ⟨(b.map (fun t => f t.2.1)).flatten, s', b.length,
             b.map (fun t => Event.miss t.2.1 (f t.2.1))⟩ := by
  induction b with
  | nil =>
    intro s cp hcp hd hnone hdist
    exact ⟨s, rfl⟩
  | cons t rest ih =>
    intro s cp hcp hd hnone hdist
    have hn := hnone t (List.mem_cons_self t rest)
    have hcont := contains_false_intro hcp hn.1 hn.2
    obtain ⟨s₁, hw⟩ : ∃ s₁, write_cache s t.2.1 (f t.2.1) = .ok s₁ :=
      ⟨_, write_cache_eq hcp hd t.2.1 (f t.2.1)⟩
    obtain ⟨hcp₁, hdirs₁, hvh₁, hwr₁, hlook₁⟩ := write_state hcp hw
    have hdistc := List.nodup_cons.mp hdist
    have hnone₁ : ∀ t' ∈ rest,
        s₁.files.lookup (cache_file_path cp (s₁.value_hasher t'.2.1)) = none ∧
        cache_file_path cp (s₁.value_hasher t'.2.1) ∉ s₁.dirs := by
      intro t' ht'
      have hn' := hnone t' (List.mem_cons_of_mem t ht')
      have hne : ¬ cache_file_path cp (s.value_hasher t'.2.1) =
          cache_file_path cp (s.value_hasher t.2.1) := by
        intro he
        have heq := cache_path_inj he
        exact hdistc.1 (List.mem_map.mpr ⟨t', ht', heq⟩)
      refine ⟨?_, ?_⟩
      · rw [hvh₁, hlook₁, if_neg hne]
        exact hn'.1
      · rw [hvh₁, hdirs₁]
        exact hn'.2
    have hdist₁ : (rest.map (fun t' => s₁.value_hasher t'.2.1)).Nodup := by
      rw [hvh₁]
      exact hdistc.2
    obtain ⟨s', hrec⟩ := @ih s₁ cp hcp₁ (hdirs₁ ▸ hd) hnone₁ hdist₁
    refine ⟨s', ?_⟩
    have hres := twc_cons_miss_intro hcont hw hrec
    simpa using hres

theorem flush_state {s s' : Sys σ α β} (h : flush_cache s = .ok s') :
    ∃ cp, s.checkpoint_path = some cp ∧
      s'.checkpoint_path = some cp ∧ cp ∈ s'.dirs ∧
      s'.value_hasher = s.value_hasher ∧ s'.wrapped = s.wrapped ∧
      ∀ hv : String, s'.files.lookup (cache_file_path cp hv) = none ∧
        cache_file_path cp hv ∉ s'.dirs := by
  obtain ⟨cp, hcp, hd, rfl⟩ := flush_cache_ok h
  refine ⟨cp, hcp, hcp, List.mem_cons_self _ _, rfl, rfl, ?_⟩
  intro hv
  have hu := cache_path_under cp hv
  refine ⟨lookup_filter_not_under hu, ?_⟩
  intro hmem
  rcases List.mem_cons.mp hmem with heq | hmem'
  · exact cache_path_ne cp hv heq
  · have := List.of_mem_filter hmem'
    simp [hu] at this

theorem open_trunc_ok {s s₁ : Sys σ α β} {x : α}
    (h : open_trunc s x = .ok s₁) :
    ∃ cp, s.checkpoint_path = some cp ∧ cp ∈ s.dirs ∧
      s₁ = { s with files :=
               fs_write s.files (cache_file_path cp (s.value_hasher x)) .corrupt } := by
  unfold open_trunc at h
  cases hcp : s.checkpoint_path with
  | none => simp [hcp] at h
  | some cp =>
    simp only [hcp] at h
    by_cases hd : cp ∈ s.dirs
    · simp only [if_pos hd, Except.ok.injEq] at h
      exact ⟨cp, rfl, hd, h.symm⟩
    · simp [if_neg hd] at h

theorem read_cache_corrupt {s : Sys σ α β} {cp : Path} {x : α}
    (hcp : s.checkpoint_path = some cp)
    (hl : s.files.lookup (cache_file_path cp (s.value_hasher x)) = some .corrupt) :
    read_cache s x = .error .corruption := by
  simp [read_cache, get_cache_path_for, hcp, hl]

theorem map_singleton_of_flatten {L : List (List β)}
    (h : ∀ l ∈ L, l.length = 1) : L = L.flatten.map (fun y => [y]) := by
  induction L with
  | nil => rfl
  | cons l L ih =>
    obtain ⟨y, rfl⟩ : ∃ y, l = [y] := by
      have h1 := h l (List.mem_cons_self l L)
      cases l with
      | nil => simp at h1
      | cons a l' =>
        cases l' with
        | nil => exact ⟨a, rfl⟩
        | cons b l'' => simp at h1
    have hL := ih (fun l hl => h l (List.mem_cons_of_mem _ hl))
    simp only [List.flatten_cons, List.map_append]
    rw [← hL]
    rfl

/-! Concrete instances used by the closed examples below. -/

/-- Concrete checkpoint path. -/
def cpA : Path := ["cache", "step", "value_caching"]

/-- Concrete wrapper state: checkpoint directory created, empty cache,
decimal-representation value hasher. -/
def sysA : Sys Unit ℕ ℕ :=
  { wrapped := (), value_hasher := Nat.repr, cache_folder := ["cache"],
    checkpoint_path := some cpA, dirs := [cpA], files := [] }

/-- Concrete wrapped unit whose transform doubles each input. -/
def WA : WrappedUnit Unit ℕ ℕ Unit :=
  { fit := fun _ _ _ => (), transformOne := fun _ x => [2 * x] }

/-- Transform of the concrete wrapped unit on one item. -/
def fA : ℕ → List ℕ := fun x => [2 * x]

/-- Concrete current-id recomputation. -/
def rehA : List Unit → List ℕ → List Unit := fun _ _ => []

/-! Claim theorems. -/

/-- C2: write/read round-trip.  After `write(x, ys)` succeeds,
`contains(x)` returns true and `read(x)` returns a value equal to `ys`:
the serialized entry round-trips through the store keyed by the hash of
`x`. -/
theorem write_read_round_trip {s s' : Sys σ α β} {x : α} {ys : List β}
    (h : write_cache s x ys = .ok s') :
    contains_cache_for s' x = .ok true ∧ read_cache s' x = .ok ys := by
  obtain ⟨cp, hcp, -, -⟩ := write_cache_ok h
  obtain ⟨hcp', hdirs, hvh, hwr, hlook⟩ := write_state hcp h
  have hl : s'.files.lookup (cache_file_path cp (s'.value_hasher x)) =
      some (.valid ys) := by
    rw [hvh, hlook, if_pos rfl]
  exact ⟨contains_true_intro hcp' (by rw [hl]; rfl), read_cache_of_lookup hcp' hl⟩

/-- Result of the concrete write used to witness C2. -/
def c2run : Sys Unit ℕ ℕ :=
  match write_cache sysA 5 [10] with
  | .ok s' => s'
  | .error _ => sysA

/-- Witness for C2: the round-trip at `x = 5`, `ys = [10]` on the
concrete state. -/
theorem write_read_round_trip_witness :
    write_cache sysA 5 [10] = .ok c2run ∧
    contains_cache_for c2run 5 = .ok true ∧ read_cache c2run 5 = .ok [10] := by
  have h : write_cache sysA 5 [10] = .ok c2run := rfl
  exact ⟨h, write_read_round_trip h⟩

/-- Concrete state whose checkpoint path is assigned but whose directory
is absent from the filesystem, for the C5 counterexample. -/
def c5sys : Sys Unit ℕ ℕ :=
  { wrapped := (), value_hasher := Nat.repr, cache_folder := ["cache"],
    checkpoint_path := some cpA, dirs := [], files := [] }

/-- C5 counterexample: when the checkpoint directory does not exist,
`flush_cache` does not succeed: `shutil.rmtree` raises the
file-not-found error, so a missing directory is an error rather than
being treated as already-empty. -/
theorem flush_missing_dir_counterexample :
    flush_cache c5sys = .error .fileNotFound := rfl

/-- C5 amended: `flush_cache` succeeds and leaves an empty checkpoint
directory only when the directory exists; when the checkpoint directory
does not exist the call fails with the file-not-found error instead of
treating the missing directory as already-empty. -/
theorem flush_requires_directory {s : Sys σ α β} {p : Path}
    (hcp : s.checkpoint_path = some p) :
    (p ∉ s.dirs → flush_cache s = .error .fileNotFound) ∧
    (p ∈ s.dirs → ∃ s', flush_cache s = .ok s' ∧ p ∈ s'.dirs ∧
      ∀ x : α, contains_cache_for s' x = .ok false) := by
  constructor
  · intro hnd
    simp [flush_cache, hcp, hnd]
  · intro hd
    have hfl : flush_cache s = .ok { s with
        dirs := p :: s.dirs.filter (fun d => !(p.isPrefixOf d)),
        files := s.files.filter (fun kv => !(p.isPrefixOf kv.1)) } := by
      simp [flush_cache, hcp, hd]
    exact ⟨_, hfl, List.mem_cons_self _ _, flush_empties hfl⟩

/-- Witness for C5 (amended): on the concrete state whose checkpoint
directory exists, flush succeeds and afterwards contains is false for
every item. -/
theorem flush_requires_directory_witness :
    ∃ s', flush_cache sysA = .ok s' ∧ cpA ∈ s'.dirs ∧
      ∀ x : ℕ, contains_cache_for s' x = .ok false :=
  (flush_requires_directory (show sysA.checkpoint_path = some cpA from rfl)).2
    (by decide)

/-- C6: flush completeness: after a successful `flush_cache`, every item
reports `contains == false` (no surviving entry under the checkpoint
path). -/
theorem flush_removes_every_entry {s s' : Sys σ α β}
    (h : flush_cache s = .ok s') (x : α) :
    contains_cache_for s' x = .ok false :=
  flush_empties h x

/-- Concrete state with two cached entries, for the C6 witness. -/
def c6sys : Sys Unit ℕ ℕ :=
  { wrapped := (), value_hasher := Nat.repr, cache_folder := ["cache"],
    checkpoint_path := some cpA, dirs := [cpA],
    files := [(cache_file_path cpA "5", .valid [10]),
              (cache_file_path cpA "6", .valid [12])] }

/-- The flushed concrete state for the C6 witness. -/
def c6run : Sys Unit ℕ ℕ :=
  match flush_cache c6sys with
  | .ok s' => s'
  | .error _ => c6sys

/-- Witness for C6: both previously written items report contains false
after the flush. -/
theorem flush_removes_every_entry_witness :
    flush_cache c6sys = .ok c6run ∧
    contains_cache_for c6run 5 = .ok false ∧
    contains_cache_for c6run 6 = .ok false := by
  have h : flush_cache c6sys = .ok c6run := rfl
  exact ⟨h, flush_removes_every_entry h 5, flush_removes_every_entry h 6⟩

/-- C9: a successful prior `setup` (which calls `create_checkpoint_path`,
the only operation assigning the `checkpoint_path` attribute) is a
precondition for every other cache operation: on a state whose attribute
is unset every operation fails with the attribute error, while `setup`
assigns the attribute. -/
theorem setup_is_precondition {s : Sys σ α β}
    (hnone : s.checkpoint_path = none) (x : α) (ys : List β) (sp : String) :
    get_cache_path_for s x = .error .attributeMissing ∧
    flush_cache s = .error .attributeMissing ∧
    read_cache s x = .error .attributeMissing ∧
    write_cache s x ys = .error .attributeMissing ∧
    contains_cache_for s x = .error .attributeMissing ∧
    (setup s sp).1.checkpoint_path =
      some (s.cache_folder ++ [sp, VALUE_CACHING]) := by
  refine ⟨?_, ?_, ?_, ?_, ?_, ?_⟩ <;>
    simp [get_cache_path_for, flush_cache, read_cache, write_cache, open_trunc,
      contains_cache_for, setup, create_checkpoint_path, hnone, Except.map]

/-- Concrete wrapper state before any `setup` ran. -/
def c9sys : Sys Unit ℕ ℕ :=
  { wrapped := (), value_hasher := Nat.repr, cache_folder := ["cache"],
    checkpoint_path := none, dirs := [], files := [] }

/-- Witness for C9 at the concrete state whose attribute is unset. -/
theorem setup_is_precondition_witness :
    get_cache_path_for c9sys 5 = .error .attributeMissing ∧
    flush_cache c9sys = .error .attributeMissing ∧
    read_cache c9sys 5 = .error .attributeMissing ∧
    write_cache c9sys 5 [10] = .error .attributeMissing ∧
    contains_cache_for c9sys 5 = .error .attributeMissing ∧
    (setup c9sys "step").1.checkpoint_path =
      some (c9sys.cache_folder ++ ["step", VALUE_CACHING]) :=
  setup_is_precondition rfl 5 [10] "step"

/-- C7: a present but malformed (corrupt) entry makes `read_cache` fail
with the corruption error, and a transform call whose batch includes
that item fails rather than treating the entry as a miss or recomputing:
the singleton batch fails with the corruption error, and no successful
loop run can include the item. -/
theorem corrupt_entry_fails {s : Sys σ α β} {cp : Path} {x : α}
    (hcp : s.checkpoint_path = some cp)
    (hcor : s.files.lookup (cache_file_path cp (s.value_hasher x)) =
      some .corrupt) :
    read_cache s x = .error .corruption ∧
    (∀ (i : ι) (g : γ) (f : α → List β),
      transform_with_cache f s [(i, x, g)] = .error .corruption) ∧
    (∀ (f : α → List β) (b : List (ι × α × γ)) (r : LoopResult σ α β),
      transform_with_cache f s b = .ok r → ∀ t ∈ b, t.2.1 ≠ x) := by
  have hread := read_cache_corrupt hcp hcor
  have hc := contains_true_intro hcp (by rw [hcor]; rfl)
  refine ⟨hread, ?_, ?_⟩
  · intro i g f
    unfold transform_with_cache
    simp [hc, hread]
  · intro f b r hok t ht heq
    exact twc_no_corrupt hcp hok t ht (by rw [heq]; exact hcor)

/-- Concrete state holding one corrupt entry, for the C7 witness. -/
def c7sys : Sys Unit ℕ ℕ :=
  { wrapped := (), value_hasher := Nat.repr, cache_folder := ["cache"],
    checkpoint_path := some cpA, dirs := [cpA],
    files := [(cache_file_path cpA "5", .corrupt)] }

/-- Witness for C7: reading the corrupt entry for item 5 fails with the
corruption error, and so does the transform of the batch containing
item 5. -/
theorem corrupt_entry_fails_witness :
    read_cache c7sys 5 = .error .corruption ∧
    transform_with_cache fA c7sys [((), 5, ())] = .error .corruption := by
  have h := @corrupt_entry_fails Unit ℕ ℕ Unit Unit c7sys cpA 5
    (show c7sys.checkpoint_path = some cpA from rfl)
    (show c7sys.files.lookup (cache_file_path cpA (c7sys.value_hasher 5)) =
      some .corrupt from rfl)
  exact ⟨h.1, h.2.1 () () fA⟩

/-- The intermediate state after the open-truncate half of the concrete
write, for the C8 counterexample. -/
def c8mid : Sys Unit ℕ ℕ :=
  match open_trunc sysA 5 with
  | .ok s₁ => s₁
  | .error _ => sysA

/-- C8 counterexample: `write_cache` opens the final path directly (no
write-to-temporary-then-rename), so there is an intermediate state —
reached when a write fails after the open and before the dump completes
— in which `contains` reports true while `read` fails: the claimed
atomicity does not hold. -/
theorem write_not_atomic_counterexample :
    open_trunc sysA 5 = .ok c8mid ∧
    contains_cache_for c8mid 5 = .ok true ∧
    read_cache c8mid 5 = .error .corruption :=
  ⟨rfl, rfl, rfl⟩

/-- C8 amended: `write_cache` truncates the final cache path in place
and then dumps into it: the full write is the truncation followed by the
dump, and in the intermediate state after the truncation (the state left
behind when a write fails midway) `contains(x)` reports true while
`read(x)` fails with the corruption error, and any previous payload at
that key has been destroyed (the entry holds the truncated blob), not
left in its prior state. -/
theorem write_truncates_in_place {s s₁ : Sys σ α β} {x : α} {cp : Path}
    (hcp : s.checkpoint_path = some cp)
    (ho : open_trunc s x = .ok s₁) (ys : List β) :
    write_cache s x ys = pickle_dump s₁ x ys ∧
    contains_cache_for s₁ x = .ok true ∧
    read_cache s₁ x = .error .corruption ∧
    s₁.files.lookup (cache_file_path cp (s.value_hasher x)) = some .corrupt := by
  obtain ⟨cp', hcp', hd, hs₁⟩ := open_trunc_ok ho
  have hce : cp = cp' := by
    rw [hcp] at hcp'
    exact Option.some.inj hcp'
  subst hce
  have hcp₁ : s₁.checkpoint_path = some cp := by rw [hs₁]; exact hcp
  have hvh₁ : s₁.value_hasher = s.value_hasher := by rw [hs₁]
  have hl : s₁.files.lookup (cache_file_path cp (s.value_hasher x)) =
      some .corrupt := by
    rw [hs₁]
    show (fs_write s.files (cache_file_path cp (s.value_hasher x)) .corrupt).lookup
      (cache_file_path cp (s.value_hasher x)) = some .corrupt
    rw [lookup_fs_write, if_pos rfl]
  have hl' : s₁.files.lookup (cache_file_path cp (s₁.value_hasher x)) =
      some .corrupt := by
    rw [hvh₁]
    exact hl
  refine ⟨?_, ?_, ?_, hl⟩
  · simp [write_cache, ho]
  · exact contains_true_intro hcp₁ (by rw [hl']; rfl)
  · exact read_cache_corrupt hcp₁ hl'

/-- Concrete state with a previous valid payload for item 5, for the C8
witness. -/
def c8prev : Sys Unit ℕ ℕ :=
  { wrapped := (), value_hasher := Nat.repr, cache_folder := ["cache"],
    checkpoint_path := some cpA, dirs := [cpA],
    files := [(cache_file_path cpA "5", .valid [99])] }

/-- The truncated intermediate state over the previous payload. -/
def c8mid2 : Sys Unit ℕ ℕ :=
  match open_trunc c8prev 5 with
  | .ok s₁ => s₁
  | .error _ => c8prev

/-- Witness for C8 (amended): on the concrete state with a previous
payload, the truncation step destroys the old payload and leaves the
visible-but-unreadable intermediate state. -/
theorem write_truncates_in_place_witness :
    write_cache c8prev 5 [10] = pickle_dump c8mid2 5 [10] ∧
    contains_cache_for c8mid2 5 = .ok true ∧
    read_cache c8mid2 5 = .error .corruption ∧
    c8mid2.files.lookup (cache_file_path cpA (c8prev.value_hasher 5)) =
      some .corrupt :=
  write_truncates_in_place
    (show c8prev.checkpoint_path = some cpA from rfl)
    (show open_trunc c8prev 5 = .ok c8mid2 from rfl) [10]

/-- C10: cache lookup is keyed solely by the hash of the item: two items
with equal hash values share one cache path, and once the first item has
a cached payload, transforming a batch containing the second item serves
that payload as a hit, with zero invocations of the wrapped unit, even
though the items differ. -/
theorem hash_collision_aliases {s : Sys σ α β} {cp : Path} {a b : α}
    {ys : List β}
    (hcp : s.checkpoint_path = some cp)
    (hhash : s.value_hasher a = s.value_hasher b)
    (hread : read_cache s a = .ok ys) :
    get_cache_path_for s a = get_cache_path_for s b ∧
    ∀ (i : ι) (g : γ) (f : α → List β),
      transform_with_cache f s [(i, b, g)] = .ok ⟨ys, s, 0, [Event.hit b ys]⟩ := by
  have hpath : cache_file_path cp (s.value_hasher a) =
      cache_file_path cp (s.value_hasher b) := by rw [hhash]
  constructor
  · simp [get_cache_path_for, hcp, hhash]
  · intro i g f
    have hl := read_cache_ok_elim hcp hread
    rw [hpath] at hl
    have hc := contains_true_intro hcp (by rw [hl]; rfl)
    have hr := read_cache_of_lookup hcp hl
    have hres := @twc_cons_hit_intro σ α β γ ι f s (i, b, g) [] ys ⟨[], s, 0, []⟩
      hc hr rfl
    simpa using hres

/-- Concrete state with a constant hasher (every item hashes to "h") and
a payload cached under that hash by item 5, for the C10 witness. -/
def sysH : Sys Unit ℕ ℕ :=
  { wrapped := (), value_hasher := fun _ => "h", cache_folder := ["cache"],
    checkpoint_path := some cpA, dirs := [cpA],
    files := [(cache_file_path cpA "h", .valid [10])] }

/-- Witness for C10: items 5 and 6 collide under the constant hasher;
after item 5 was cached, transforming the batch containing item 6 serves
the payload of item 5 with zero wrapped-unit invocations. -/
theorem hash_collision_aliases_witness :
    get_cache_path_for sysH 5 = get_cache_path_for sysH 6 ∧
    transform_with_cache fA sysH [((), 6, ())] =
      .ok ⟨[10], sysH, 0, [Event.hit 6 [10]]⟩ := by
  have h := @hash_collision_aliases Unit ℕ ℕ Unit Unit sysH cpA 5 6 [10]
    (show sysH.checkpoint_path = some cpA from rfl)
    (show sysH.value_hasher 5 = sysH.value_hasher 6 from rfl)
    (show read_cache sysH 5 = .ok [10] from rfl)
  exact ⟨h.1, h.2 () () fA⟩

/-- C3: idempotent hit: a second `handle_transform` on the same batch
with no intervening flush returns the same outputs (hence the same
container), leaves the cache state unchanged, and invokes the wrapped
unit zero times: every item of the second call is a cache hit. -/
theorem handle_transform_idempotent {W : WrappedUnit σ α β γ}
    {rehash : List ι → List β → List ι} {s : Sys σ α β}
    {dc : DataContainer ι α γ} {res : StepResult ι σ α β γ}
    (h : handle_transform W rehash s dc = .ok res) :
    handle_transform W rehash res.sys dc =
      .ok { container := res.container, sys := res.sys, calls := 0,
            trace := res.trace.map Event.asHit } := by
  unfold handle_transform at h
  cases hrun : transform_with_cache (W.transformOne s.wrapped) s
      (containerItems dc) with
  | error e => simp [hrun] at h
  | ok r =>
    simp only [hrun, Except.ok.injEq] at h
    subst h
    have hwr : r.sys.wrapped = s.wrapped := (twc_fields hrun).2.2.2
    have hsec := twc_second_run hrun
    show handle_transform W rehash r.sys dc =
      .ok { container := { current_ids := rehash dc.current_ids r.outs,
                           data_inputs := r.outs,
                           expected_outputs := dc.expected_outputs },
            sys := r.sys, calls := 0, trace := r.trace.map Event.asHit }
    unfold handle_transform
    rw [hwr]
    simp only [hsec]

/-- Concrete two-item batch container for the C3 witness. -/
def dcA : DataContainer Unit ℕ Unit :=
  { current_ids := [(), ()], data_inputs := [5, 6],
    expected_outputs := [(), ()] }

/-- Result of the first concrete `handle_transform` call. -/
def c3res : StepResult Unit Unit ℕ ℕ Unit :=
  match handle_transform WA rehA sysA dcA with
  | .ok r => r
  | .error _ => ⟨⟨[], [], []⟩, sysA, 0, []⟩

/-- Witness for C3: the second call on the concrete batch returns the
same container with zero wrapped-unit invocations and an all-hit
trace. -/
theorem handle_transform_idempotent_witness :
    handle_transform WA rehA sysA dcA = .ok c3res ∧
    handle_transform WA rehA c3res.sys dcA =
      .ok { container := c3res.container, sys := c3res.sys, calls := 0,
            trace := c3res.trace.map Event.asHit } := by
  have h : handle_transform WA rehA sysA dcA = .ok c3res := rfl
  exact ⟨h, handle_transform_idempotent h⟩

/-- C4: order preservation: for any successful run of the per-item loop
the trace lists exactly the batch items in batch order, the output
sequence is the in-order concatenation of the per-item output chunks,
and when every chunk has length one the outputs correspond one-to-one,
in order, to the input items. -/
theorem transform_order_preserved {f : α → List β} {b : List (ι × α × γ)}
    {s : Sys σ α β} {r : LoopResult σ α β}
    (h : transform_with_cache f s b = .ok r) :
    r.trace.map Event.itemOf = b.map (fun t => some t.2.1) ∧
    r.outs = (r.trace.map Event.outsOf).flatten ∧
    ((∀ e ∈ r.trace, (Event.outsOf e).length = 1) →
      r.trace.map Event.outsOf = r.outs.map (fun y => [y])) := by
  obtain ⟨h1, h2⟩ := twc_trace_shape h
  refine ⟨h1, h2, ?_⟩
  intro hone
  rw [h2]
  refine map_singleton_of_flatten ?_
  intro l hl
  obtain ⟨e, he, rfl⟩ := List.mem_map.mp hl
  exact hone e he

/-- Concrete state for the C4 witness: items 5 and 7 cached, items 6
and 8 not. -/
def c4sys : Sys Unit ℕ ℕ :=
  { wrapped := (), value_hasher := Nat.repr, cache_folder := ["cache"],
    checkpoint_path := some cpA, dirs := [cpA],
    files := [(cache_file_path cpA "5", .valid [10]),
              (cache_file_path cpA "7", .valid [14])] }

/-- Concrete interleaved hit/miss batch for the C4 witness. -/
def bC4 : List (Unit × ℕ × Unit) :=
  [((), 5, ()), ((), 6, ()), ((), 7, ()), ((), 8, ())]

/-- Result of the concrete interleaved loop run. -/
def c4run : LoopResult Unit ℕ ℕ :=
  match transform_with_cache fA c4sys bC4 with
  | .ok r => r
  | .error _ => ⟨[], c4sys, 0, []⟩

/-- Witness for C4 on the interleaved hit/miss batch `[5, 6, 7, 8]` with
items 5 and 7 cached. -/
theorem transform_order_preserved_witness :
    transform_with_cache fA c4sys bC4 = .ok c4run ∧
    c4run.trace.map Event.itemOf = bC4.map (fun t => some t.2.1) ∧
    c4run.outs = (c4run.trace.map Event.outsOf).flatten ∧
    ((∀ e ∈ c4run.trace, (Event.outsOf e).length = 1) →
      c4run.trace.map Event.outsOf = c4run.outs.map (fun y => [y])) := by
  have h : transform_with_cache fA c4sys bC4 = .ok c4run := rfl
  exact ⟨h, transform_order_preserved h⟩

/-- C1 amended: on every successful `handle_fit_transform`, the flush of
the entire cache is observed before the wrapped unit is fitted and
before any new cache entry is written: the flush succeeds and afterwards
every item reports `contains == false`; the event trace is the flush
event, then the fit event, then only per-item events; the per-item loop
therefore starts on an empty cache, and whenever the hash values of the
items of the batch are pairwise distinct every item of the batch is a
miss (one wrapped-unit invocation per item).  Without the distinctness
condition a later item whose hash equals an earlier one hits the entry
written moments before, so not every item of the batch is a miss; see
the counterexample. -/
theorem fit_flushes_before_fit_and_writes {W : WrappedUnit σ α β γ}
    {rehash : List ι → List β → List ι} {s : Sys σ α β}
    {dc : DataContainer ι α γ} {res : StepResult ι σ α β γ}
    (h : handle_fit_transform W rehash s dc = .ok res) :
    (∃ s₁, flush_cache s = .ok s₁ ∧
      ∀ x : α, contains_cache_for s₁ x = .ok false) ∧
    (∃ tr, res.trace = Event.flush :: Event.fitted :: tr ∧
      ∀ e ∈ tr, e.isItem = true) ∧
    (((containerItems dc).map (fun t => s.value_hasher t.2.1)).Nodup →
      res.calls = (containerItems dc).length ∧
      res.trace = Event.flush :: Event.fitted ::
        (containerItems dc).map (fun t => Event.miss t.2.1
          (W.transformOne (W.fit s.wrapped dc.data_inputs dc.expected_outputs)
            t.2.1))) := by
  unfold handle_fit_transform at h
  cases hfl : flush_cache s with
  | error e => simp [hfl] at h
  | ok s₁ =>
    simp only [hfl] at h
    cases hrun : transform_with_cache
        (W.transformOne (W.fit s₁.wrapped dc.data_inputs dc.expected_outputs))
        { s₁ with wrapped := W.fit s₁.wrapped dc.data_inputs dc.expected_outputs }
        (containerItems dc) with
    | error e => simp [hrun] at h
    | ok r =>
      simp only [hrun, Except.ok.injEq] at h
      subst h
      refine ⟨⟨s₁, rfl, flush_empties hfl⟩,
        ⟨r.trace, rfl, twc_trace_items hrun⟩, ?_⟩
      intro hnd
      obtain ⟨cp, hcps, hcp₁, hd₁, hvh₁, hwrp₁, hempty⟩ := flush_state hfl
      rw [← hvh₁] at hnd
      have hrun' : ∃ s', transform_with_cache
          (W.transformOne (W.fit s₁.wrapped dc.data_inputs dc.expected_outputs))
          { s₁ with wrapped := W.fit s₁.wrapped dc.data_inputs dc.expected_outputs }
          (containerItems dc) =
          .ok ⟨((containerItems dc).map (fun t =>
                  W.transformOne
                    (W.fit s₁.wrapped dc.data_inputs dc.expected_outputs)
                    t.2.1)).flatten,
               s', (containerItems dc).length,
               (containerItems dc).map (fun t => Event.miss t.2.1
                 (W.transformOne
                   (W.fit s₁.wrapped dc.data_inputs dc.expected_outputs)
                   t.2.1))⟩ :=
        twc_all_miss hcp₁ hd₁ (fun t _ => hempty _) hnd
      obtain ⟨s', hrun'⟩ := hrun'
      rw [hrun] at hrun'
      have hreq := (Except.ok.injEq _ _).mp hrun'
      subst hreq
      refine ⟨rfl, ?_⟩
      show Event.flush :: Event.fitted ::
        (containerItems dc).map (fun t => Event.miss t.2.1
          (W.transformOne (W.fit s₁.wrapped dc.data_inputs dc.expected_outputs)
            t.2.1)) = _
      rw [hwrp₁]

/-- Duplicate-item batch container for the C1 counterexample. -/
def dcC1 : DataContainer Unit ℕ Unit :=
  { current_ids := [(), ()], data_inputs := [5, 5],
    expected_outputs := [(), ()] }

/-- C1 counterexample: for the duplicate batch `[5, 5]`,
`handle_fit_transform` performs only one wrapped-unit invocation and its
trace records a cache hit for the second occurrence of item 5 (the entry
written moments earlier in the same loop), so the claim that every item
of the batch is a miss is false. -/
theorem fit_all_miss_counterexample :
    (handle_fit_transform WA rehA sysA dcC1).map (fun r => (r.calls, r.trace)) =
      .ok (1, [Event.flush, Event.fitted, Event.miss 5 [10],
               Event.hit 5 [10]]) := rfl

/-- Result of the concrete `handle_fit_transform` on the distinct batch
`[5, 6]`, for the C1 witness. -/
def c1res : StepResult Unit Unit ℕ ℕ Unit :=
  match handle_fit_transform WA rehA sysA dcA with
  | .ok r => r
  | .error _ => ⟨⟨[], [], []⟩, sysA, 0, []⟩

/-- Witness for C1 (amended) on the distinct-hash batch `[5, 6]`. -/
theorem fit_flushes_before_fit_and_writes_witness :
    (∃ s₁, flush_cache sysA = .ok s₁ ∧
      ∀ x : ℕ, contains_cache_for s₁ x = .ok false) ∧
    (∃ tr, c1res.trace = Event.flush :: Event.fitted :: tr ∧
      ∀ e ∈ tr, e.isItem = true) ∧
    (((containerItems dcA).map (fun t => sysA.value_hasher t.2.1)).Nodup →
      c1res.calls = (containerItems dcA).length ∧
      c1res.trace = Event.flush :: Event.fitted ::
        (containerItems dcA).map (fun t => Event.miss t.2.1
          (WA.transformOne
            (WA.fit sysA.wrapped dcA.data_inputs dcA.expected_outputs)
            t.2.1))) :=
  fit_flushes_before_fit_and_writes
    (show handle_fit_transform WA rehA sysA dcA = .ok c1res from rfl)

end Caching
